import Mathlib

/-
Verification of the AST rewrite engine of sqlc-qol, a source-to-source
rewriting tool for SQLC-generated Go code.  The development shallowly embeds
the two pipelines of the repository:

* `internal/qualifymodels/qualifymodels.go` — the identifier qualifier:
  collect struct type names from a models file, replace bare identifiers by
  `alias.Name` selector expressions and inject the models import.
* `internal/addnosec/addnosec.go` — the annotation injector: resolve a set of
  target constant names (inline list or sandboxed CSV file) and append a
  `// #nosec` trailing comment to matching value specifications.

Go strings are modelled by Lean `String`; the handful of library functions the
code relies on (`strings.TrimSpace`, `strings.Split`, `strings.Contains`,
`strings.HasPrefix`, `path.Base`, `filepath.Abs`/`Clean`) are given explicit
executable models below, written over `List Char` so that every definition
reduces.
-/

namespace SqlcQol

/-- Model of splitting a character list at every occurrence of `sep`,
mirroring Go `strings.Split` (for a one-character separator).  The second
argument accumulates the current field in reverse. -/
def splitChar (sep : Char) : List Char → List Char → List (List Char)
  | [], cur => [cur.reverse]
  | c :: rest, cur =>
      if c = sep then cur.reverse :: splitChar sep rest []
      else splitChar sep rest (c :: cur)

/-- Go `strings.Split(s, sep)` for a one-character separator. -/
def goSplit (s : String) (sep : Char) : List String :=
  (splitChar sep s.toList []).map String.mk

/-- Whitespace trimming on character lists: drop leading and trailing
whitespace characters. -/
def trimChars (cs : List Char) : List Char :=
  ((cs.dropWhile Char.isWhitespace).reverse.dropWhile Char.isWhitespace).reverse

/-- Go `strings.TrimSpace`. -/
def goTrimSpace (s : String) : String :=
  String.mk (trimChars s.toList)

/-- Containment of `needle` as a contiguous sublist: tested at every suffix. -/
def infixOfChars (needle : List Char) : List Char → Bool
  | [] => needle.isPrefixOf []
  | c :: rest => needle.isPrefixOf (c :: rest) || infixOfChars needle rest

/-- Go `strings.Contains(s, sub)`: `sub` occurs contiguously inside `s`. -/
def goContains (s sub : String) : Bool :=
  infixOfChars sub.toList s.toList

/-- Go `strings.HasPrefix(s, p)`: `s` starts with `p`. -/
def goStartsWith (s p : String) : Bool :=
  p.toList.isPrefixOf s.toList

/-- One step of the lexical path-cleaning stack for a rooted path: empty and
`.` components are dropped, `..` pops the last real component (or is elided at
the root), anything else is pushed. -/
def cleanAbsStep (acc : List (List Char)) (c : List Char) : List (List Char) :=
  if c = [] ∨ c = ['.'] then acc
  else if c = ['.', '.'] then acc.tail
  else c :: acc

/-- Go `path/filepath.Clean` restricted to rooted (absolute, Unix) paths:
split on `/`, process components against a stack, re-join under the root. -/
def cleanAbs (p : String) : String :=
  let comps := (splitChar '/' p.toList []).foldl cleanAbsStep []
  String.mk ('/' :: List.intercalate ['/'] comps.reverse)

/-- Go `path/filepath.Abs` on a Unix filesystem whose working directory `cwd`
is absolute: an absolute path is cleaned, a relative one is joined to `cwd`
and cleaned. -/
def goAbs (cwd p : String) : String :=
  if goStartsWith p "/" then cleanAbs p else cleanAbs (cwd ++ "/" ++ p)

/-- Go `path.Base`: the last non-empty component of the path, `"."` for the
empty path, `"/"` for a path made only of slashes. -/
def pathBase (p : String) : String :=
  if p = "" then "."
  else
    match (((splitChar '/' p.toList []).map String.mk).filter (fun c => c ≠ "")).getLast? with
    | some s => s
    | none => "/"

/-! ### Go AST fragments for the identifier qualifier

`GoExpr` embeds the expression nodes the qualifier pass touches.  In `go/ast`
a `SelectorExpr` consists of a base expression `X` and a field identifier
`Sel`; `Sel` is kept here as a plain name because `astutil.Apply` visits it
with its parent being the `SelectorExpr`, where the guard at
qualifymodels.go:130 unconditionally skips it, so it can never be rewritten.
`call` stands for any node whose children are visited in a non-selector
parent position (modelled with fixed arity two). -/

inductive GoExpr where
  | ident (name : String)
  | sel (x : GoExpr) (selName : String)
  | call (fn : GoExpr) (arg : GoExpr)
deriving DecidableEq

/-- The traversal of qualifymodels.go:121-141: `astutil.Apply` in pre-order.
An identifier whose name is in `modelNames` and whose parent is not a
`SelectorExpr` is replaced by the selector `pkgAlias.name`; `Apply` does not
re-descend into the replacement (it walks the children of the original
`Ident`, which has none).  The flag `parentIsSel` records whether the node
being visited sits directly under a `SelectorExpr`. -/
def qualifyExpr (modelNames : List String) (pkgAlias : String) : GoExpr → Bool → GoExpr
  | .ident n, parentIsSel =>
      if modelNames.contains n && !parentIsSel then .sel (.ident pkgAlias) n
      else .ident n
  | .sel x s, _ => .sel (qualifyExpr modelNames pkgAlias x true) s
  | .call fn arg, _ =>
      .call (qualifyExpr modelNames pkgAlias fn false)
        (qualifyExpr modelNames pkgAlias arg false)

/-- A parsed query file as the qualifier sees it: its import list and the
expression nodes of its tree. -/
structure QFile where
  imports : List String
  exprs : List GoExpr
deriving DecidableEq

/-- Model of `astutil.AddImport`: add the import path unless it is already
present. -/
def addImport (f : QFile) (importPath : String) : QFile :=
  if f.imports.contains importPath then f
  else QFile.mk (f.imports ++ [importPath]) f.exprs

/-- One full run of the qualifier pass on one file (qualifymodels.go:121-143):
rewrite every expression with `qualifyExpr` starting from a non-selector
parent, then ensure the models import. -/
def qualifyFile (modelNames : List String) (pkgAlias importPath : String) (f : QFile) : QFile :=
  addImport (QFile.mk f.imports (f.exprs.map (fun e => qualifyExpr modelNames pkgAlias e false)))
    importPath

/-- Deterministic rendering of an expression, standing for the relevant part
of `go/format.Node`. -/
def renderExpr : GoExpr → String
  | .ident n => n
  | .sel x s => renderExpr x ++ "." ++ s
  | .call fn arg => renderExpr fn ++ "(" ++ renderExpr arg ++ ")"

/-- Deterministic rendering of a query file, standing for `go/format.Node`:
byte-identical output is equality of this rendering. -/
def renderQFile (f : QFile) : String :=
  String.intercalate "\n"
    (f.imports.map (fun i => "import " ++ i) ++ f.exprs.map renderExpr)

/-! ### Lemmas about the qualifier pass -/

theorem qualifyExpr_ident (m : List String) (a n : String) (b : Bool) :
    qualifyExpr m a (GoExpr.ident n) b
      = if (m.contains n && !b) = true then GoExpr.sel (GoExpr.ident a) n
        else GoExpr.ident n := rfl

theorem qualifyExpr_sel (m : List String) (a : String) (x : GoExpr) (s : String) (b : Bool) :
    qualifyExpr m a (GoExpr.sel x s) b = GoExpr.sel (qualifyExpr m a x true) s := rfl

theorem qualifyExpr_call (m : List String) (a : String) (fn arg : GoExpr) (b : Bool) :
    qualifyExpr m a (GoExpr.call fn arg) b
      = GoExpr.call (qualifyExpr m a fn false) (qualifyExpr m a arg false) := rfl

/-- An identifier visited in selector-parent position is never rewritten. -/
theorem qualifyExpr_ident_selParent (m : List String) (a n : String) :
    qualifyExpr m a (GoExpr.ident n) true = GoExpr.ident n := by
  rw [qualifyExpr_ident]
  simp

/-- Applying the qualifier traversal a second time changes nothing: every
identifier it rewrote now sits under a synthesized selector, whose parts are
visited (if at all) in selector-parent position and therefore skipped. -/
theorem qualifyExpr_idem (m : List String) (a : String) :
    ∀ (e : GoExpr) (b : Bool),
      qualifyExpr m a (qualifyExpr m a e b) b = qualifyExpr m a e b
  | .ident n, b => by
      cases hcb : (m.contains n && !b) with
      | false =>
          have h1 : qualifyExpr m a (GoExpr.ident n) b = GoExpr.ident n := by
            rw [qualifyExpr_ident, hcb]
            simp
          rw [h1, h1]
      | true =>
          have h1 : qualifyExpr m a (GoExpr.ident n) b = GoExpr.sel (GoExpr.ident a) n := by
            rw [qualifyExpr_ident, if_pos hcb]
          rw [h1, qualifyExpr_sel, qualifyExpr_ident_selParent]
  | .sel x s, b => by
      rw [qualifyExpr_sel, qualifyExpr_sel, qualifyExpr_idem m a x true]
  | .call fn arg, b => by
      rw [qualifyExpr_call, qualifyExpr_call,
        qualifyExpr_idem m a fn false, qualifyExpr_idem m a arg false]

theorem addImport_exprs (f : QFile) (p : String) : (addImport f p).exprs = f.exprs := by
  unfold addImport
  split <;> rfl

theorem addImport_contains_self (f : QFile) (p : String) :
    (addImport f p).imports.contains p = true := by
  unfold addImport
  by_cases h : f.imports.contains p = true
  · rw [if_pos h]
    exact h
  · rw [if_neg h]
    show (f.imports ++ [p]).contains p = true
    simp

theorem addImport_of_contains (f : QFile) (p : String)
    (h : f.imports.contains p = true) : addImport f p = f := by
  unfold addImport
  rw [if_pos h]

/-- C1: applying the identifier-qualifier pass (identifier replacement
plus import injection) twice to any file yields the same tree, and hence
byte-identical rendered output, as applying it once; the injected import is
not duplicated. -/
theorem qualify_run_idempotent (m : List String) (pkgAlias importPath : String) (f : QFile) :
    qualifyFile m pkgAlias importPath (qualifyFile m pkgAlias importPath f)
        = qualifyFile m pkgAlias importPath f
    ∧ renderQFile (qualifyFile m pkgAlias importPath (qualifyFile m pkgAlias importPath f))
        = renderQFile (qualifyFile m pkgAlias importPath f) := by
  have hmain :
      qualifyFile m pkgAlias importPath (qualifyFile m pkgAlias importPath f)
        = qualifyFile m pkgAlias importPath f := by
    unfold qualifyFile
    generalize hA :
      addImport (QFile.mk f.imports (f.exprs.map fun e => qualifyExpr m pkgAlias e false))
        importPath = A
    have he : A.exprs = f.exprs.map (fun e => qualifyExpr m pkgAlias e false) := by
      rw [← hA]
      exact addImport_exprs _ _
    have hc : A.imports.contains importPath = true := by
      rw [← hA]
      exact addImport_contains_self _ _
    have hmap :
        A.exprs.map (fun e => qualifyExpr m pkgAlias e false) = A.exprs := by
      rw [he, List.map_map]
      apply List.map_congr_left
      intro e _
      exact qualifyExpr_idem m pkgAlias e false
    rw [hmap]
    have heta : QFile.mk A.imports A.exprs = A := rfl
    rw [heta]
    exact addImport_of_contains _ _ hc
  exact ⟨hmain, congrArg renderQFile hmain⟩

/-- C4 counterexample: `Transaction` is in the model set and is the *base* of
the selector `Transaction.Field` — so it is not the right-hand side of any
namespaced-access expression, let alone one whose base is the alias — yet the
code leaves it unqualified, because the guard at qualifymodels.go:130 skips
every identifier whose parent is a selector.  The claim predicts the second
expression; the code produces the first, and the two differ. -/
theorem qualify_selector_base_counterexample :
    qualifyExpr ["Transaction"] "models" (GoExpr.sel (GoExpr.ident "Transaction") "Field") false
        = GoExpr.sel (GoExpr.ident "Transaction") "Field"
    ∧ GoExpr.sel (GoExpr.ident "Transaction") "Field"
        ≠ GoExpr.sel (GoExpr.sel (GoExpr.ident "models") "Transaction") "Field" := by
  constructor
  · decide
  · decide

/-- C4 amended: an identifier node is replaced by `pkgAlias.name` if and only
if its text is in the model name set and its immediate parent is not a
selector expression of any shape — the code never inspects the selector's
base, and it also skips an in-set identifier standing as the base of a
selector. -/
theorem qualify_replacement_characterization (m : List String) (a n s : String) (b : Bool) :
    (qualifyExpr m a (GoExpr.ident n) b = GoExpr.sel (GoExpr.ident a) n
        ↔ m.contains n = true ∧ b = false)
    ∧ qualifyExpr m a (GoExpr.sel (GoExpr.ident n) s) b = GoExpr.sel (GoExpr.ident n) s := by
  constructor
  · constructor
    · intro h
      rw [qualifyExpr_ident] at h
      by_cases hc : (m.contains n && !b) = true
      · rcases Bool.and_eq_true _ _ |>.mp hc with ⟨h1, h2⟩
        exact ⟨h1, by simpa using h2⟩
      · rw [if_neg hc] at h
        exact absurd h (by intro hh; exact GoExpr.noConfusion hh)
    · rintro ⟨h1, h2⟩
      subst h2
      have hcond : (m.contains n && !false) = true := by
        rw [h1]
        rfl
      rw [qualifyExpr_ident, if_pos hcond]
  · rw [qualifyExpr_sel, qualifyExpr_ident_selParent]

/-- C4 amended, witness: a bare in-set identifier in non-selector position is
qualified. -/
theorem qualify_replacement_characterization_witness :
    qualifyExpr ["User"] "models" (GoExpr.ident "User") false
      = GoExpr.sel (GoExpr.ident "models") "User" :=
  (qualify_replacement_characterization ["User"] "models" "User" "X" false).1.mpr
    (by constructor <;> decide)

/-! ### Go declarations: type specs and value specs

These embed the parts of `go/ast` the two pipelines inspect: `GenDecl`
(with its token: `type`, `const`, `var`, `import`), `TypeSpec` (name, the
alias marker `Assign`, and the shape of the type expression) and `ValueSpec`
(declared names and the attached trailing comment group, a list of comment
texts). -/

structure ValueSpec where
  names : List String
  comment : Option (List String)
deriving DecidableEq

inductive GoTok where
  | typeTok | constTok | varTok | importTok
deriving DecidableEq

/-- The shape of a `TypeSpec`'s type expression: a struct literal, an
interface literal, a reference to a named/primitive type, or a function
type. -/
inductive GoTypeExpr where
  | structType
  | interfaceType
  | namedType (name : String)
  | funcType
deriving DecidableEq

inductive GoSpec where
  | typeSpec (name : String) (isAlias : Bool) (ty : GoTypeExpr)
  | valueSpec (vs : ValueSpec)
  | importSpec (path : String)
deriving DecidableEq

inductive GoDecl where
  | genDecl (tok : GoTok) (specs : List GoSpec)
  | funcDecl (name : String)
deriving DecidableEq

/-! ### Model Name Extractor (qualifymodels.go:86-102)

The code looks at every top-level declaration; for a `GenDecl` with token
`type` it records the name of every `TypeSpec` whose `Type` is a
`*ast.StructType`.  The alias marker (`TypeSpec.Assign`) is never inspected.
The Go code stores names in a `map[string]bool` used only for membership, so
a list with `contains` is an adequate model. -/

def structNamesOfSpec : GoSpec → List String
  | .typeSpec name _ GoTypeExpr.structType => [name]
  | _ => []

def structNamesOfDecl : GoDecl → List String
  | .genDecl tok specs =>
      if tok = GoTok.typeTok then specs.flatMap structNamesOfSpec else []
  | _ => []

def collectModelNames (decls : List GoDecl) : List String :=
  decls.flatMap structNamesOfDecl

/-- Modelled from the spec: "for every top-level type declaration whose
underlying shape is a structured aggregate (a record/struct-like type, not an
alias, interface, or primitive), record its name" — unlike the code, this
version excludes declarations marked as aliases. -/
def specModelNames (decls : List GoDecl) : List String :=
  decls.flatMap fun d =>
    match d with
    | .genDecl tok specs =>
        if tok = GoTok.typeTok then
          specs.flatMap fun s =>
            match s with
            | .typeSpec name false GoTypeExpr.structType => [name]
            | _ => []
        else []
    | _ => []

/-! ### Annotation Injector (addnosec.go:92-126)

`astutil.Apply` visits every `ValueSpec`; for each declared name in the
target map it checks the spec's attached comment group for the text
`#nosec` (`strings.Contains`) and appends a `// #nosec` comment only when
absent.  The marker test re-reads the comment group mutated by earlier names
of the same spec. -/

def hasNoSecComment (vs : ValueSpec) : Bool :=
  match vs.comment with
  | none => false
  | some cs => cs.any (fun c => goContains c "#nosec")

/-- Appending the synthesized `// #nosec` comment to the declaration's
comment group (addnosec.go:110-121): a new one-element group if none exists,
otherwise an append. -/
def appendNoSec (vs : ValueSpec) : ValueSpec :=
  match vs.comment with
  | none => ValueSpec.mk vs.names (some ["// #nosec"])
  | some cs => ValueSpec.mk vs.names (some (cs ++ ["// #nosec"]))

/-- The body of the per-name loop at addnosec.go:97-124. -/
def annotateStep (targetMap : List String) (vs : ValueSpec) (name : String) : ValueSpec :=
  if targetMap.contains name then
    if hasNoSecComment vs then vs else appendNoSec vs
  else vs

/-- The whole per-spec loop: fold the per-name step over the declared
names. -/
def annotateValueSpec (targetMap : List String) (vs : ValueSpec) : ValueSpec :=
  vs.names.foldl (annotateStep targetMap) vs

def annotateSpec (targetMap : List String) : GoSpec → GoSpec
  | .valueSpec vs => .valueSpec (annotateValueSpec targetMap vs)
  | s => s

def annotateDecl (targetMap : List String) : GoDecl → GoDecl
  | .genDecl tok specs => .genDecl tok (specs.map (annotateSpec targetMap))
  | d => d

/-- One full run of the annotation pass over a parsed file's declarations. -/
def annotateDecls (targetMap : List String) (decls : List GoDecl) : List GoDecl :=
  decls.map (annotateDecl targetMap)

/-! ### Deterministic rendering of declarations (for byte-identical output) -/

def renderValueSpec (vs : ValueSpec) : String :=
  String.intercalate ", " vs.names
    ++ match vs.comment with
       | none => ""
       | some cs => " " ++ String.intercalate " " cs

def renderSpec : GoSpec → String
  | .typeSpec name _ _ => "type " ++ name
  | .valueSpec vs => "const " ++ renderValueSpec vs
  | .importSpec p => "import " ++ p

def renderDecl : GoDecl → String
  | .genDecl _ specs => String.intercalate "\n" (specs.map renderSpec)
  | .funcDecl n => "func " ++ n

def renderDecls (decls : List GoDecl) : String :=
  String.intercalate "\n" (decls.map renderDecl)

/-! ### Target Resolver (addnosec.go:142-197) -/

/-- Set insertion standing for `targetMap[x] = true` on a `map[string]bool`
used only for membership. -/
def setInsert (s : List String) (x : String) : List String :=
  if s.contains x then s else s ++ [x]

/-- addnosec.go:173-182, `parseTargets`: split the inline list on commas,
trim each entry, keep non-empty trimmed entries. -/
def parseTargets (targets : String) : List String :=
  (goSplit targets ',').foldl
    (fun acc target =>
      let trimmed := goTrimSpace target
      if trimmed ≠ "" then setInsert acc trimmed else acc)
    []

/-- addnosec.go:160-169: the row/field loops of `parseTargetsCSV` applied to
already-parsed CSV rows.  Note the code checks that the *trimmed* field is
non-empty but then inserts the *untrimmed* `name` (addnosec.go:166). -/
def parseTargetsCSVRows (rows : List (List String)) : List String :=
  rows.foldl
    (fun acc row =>
      row.foldl
        (fun acc2 name =>
          let trimmed := goTrimSpace name
          if trimmed ≠ "" then setInsert acc2 name else acc2)
        acc)
    []

/-- addnosec.go:184-197, `sanitizePath`: resolve both paths with
`filepath.Abs` and fail unless the resolved file path has the resolved base
directory as a string prefix (`strings.HasPrefix`). -/
def sanitizePath (cwd csvPath baseDir : String) : Except String String :=
  let absPath := goAbs cwd csvPath
  let base := goAbs cwd baseDir
  if !(goStartsWith absPath base) then
    Except.error ("invalid path: " ++ absPath ++ " is not within the allowed directory " ++ base)
  else Except.ok absPath

/-- Modelled from the spec: "the resolved file path is ... contained within
the resolved base directory" — the path is the directory itself or lies
strictly below it (its rendering extends the directory's followed by a path
separator). -/
def containedInDir (p dir : String) : Bool :=
  (p == dir) || goStartsWith p (dir ++ "/")

/-! ### Lemmas about the annotation pass -/

theorem appendNoSec_names (vs : ValueSpec) : (appendNoSec vs).names = vs.names := by
  cases vs with
  | mk names comment => cases comment <;> rfl

/-- A spec that already carries the marker is never touched by the per-name
step. -/
theorem annotateStep_of_marker (tm : List String) (vs : ValueSpec) (n : String)
    (h : hasNoSecComment vs = true) : annotateStep tm vs n = vs := by
  unfold annotateStep
  by_cases hc : tm.contains n = true
  · rw [if_pos hc, if_pos h]
  · rw [if_neg hc]

theorem foldl_annotateStep_of_marker (tm : List String) :
    ∀ (names : List String) (acc : ValueSpec), hasNoSecComment acc = true →
      names.foldl (annotateStep tm) acc = acc
  | [], _, _ => rfl
  | n :: ns, acc, h => by
      rw [List.foldl_cons, annotateStep_of_marker tm acc n h]
      exact foldl_annotateStep_of_marker tm ns acc h

/-- The freshly appended `// #nosec` comment makes the marker test succeed. -/
theorem hasNoSecComment_appendNoSec (vs : ValueSpec) :
    hasNoSecComment (appendNoSec vs) = true := by
  cases vs with
  | mk names comment =>
    cases comment with
    | none => rfl
    | some cs =>
        show (cs ++ ["// #nosec"]).any (fun c => goContains c "#nosec") = true
        rw [List.any_append]
        have h : (["// #nosec"].any fun c => goContains c "#nosec") = true := by decide
        rw [h, Bool.or_true]

/-- Each per-name step either leaves the spec alone or appends the marker. -/
theorem annotateStep_cases (tm : List String) (acc : ValueSpec) (n : String) :
    annotateStep tm acc n = acc ∨ annotateStep tm acc n = appendNoSec acc := by
  unfold annotateStep
  by_cases hc : tm.contains n = true
  · rw [if_pos hc]
    by_cases hm : hasNoSecComment acc = true
    · rw [if_pos hm]
      exact Or.inl rfl
    · rw [if_neg hm]
      exact Or.inr rfl
  · rw [if_neg hc]
    exact Or.inl rfl

/-- After the per-spec loop, either nothing changed or the result carries the
marker. -/
theorem foldl_annotateStep_fix_or_marker (tm : List String) :
    ∀ (names : List String) (acc : ValueSpec),
      names.foldl (annotateStep tm) acc = acc
      ∨ hasNoSecComment (names.foldl (annotateStep tm) acc) = true
  | [], _ => Or.inl rfl
  | n :: ns, acc => by
      rw [List.foldl_cons]
      rcases annotateStep_cases tm acc n with h | h
      · rw [h]
        exact foldl_annotateStep_fix_or_marker tm ns acc
      · rw [h]
        right
        rw [foldl_annotateStep_of_marker tm ns (appendNoSec acc) (hasNoSecComment_appendNoSec acc)]
        exact hasNoSecComment_appendNoSec acc

theorem annotateStep_names (tm : List String) (acc : ValueSpec) (n : String) :
    (annotateStep tm acc n).names = acc.names := by
  rcases annotateStep_cases tm acc n with h | h <;> rw [h]
  exact appendNoSec_names acc

theorem foldl_annotateStep_names (tm : List String) :
    ∀ (names : List String) (acc : ValueSpec),
      (names.foldl (annotateStep tm) acc).names = acc.names
  | [], _ => rfl
  | n :: ns, acc => by
      rw [List.foldl_cons, foldl_annotateStep_names tm ns (annotateStep tm acc n)]
      exact annotateStep_names tm acc n

/-- Re-annotating an already annotated spec changes nothing. -/
theorem annotateValueSpec_idem (tm : List String) (vs : ValueSpec) :
    annotateValueSpec tm (annotateValueSpec tm vs) = annotateValueSpec tm vs := by
  unfold annotateValueSpec
  rw [foldl_annotateStep_names tm vs.names vs]
  rcases foldl_annotateStep_fix_or_marker tm vs.names vs with h | h
  · conv_lhs => rw [h]
  · exact foldl_annotateStep_of_marker tm vs.names _ h

/-- If the spec carries no marker yet and some declared name is targeted, the
loop appends the marker exactly once — at the first matching name — and every
later matching name sees the marker and does nothing. -/
theorem foldl_annotateStep_first_match (tm : List String) :
    ∀ (names : List String) (acc : ValueSpec),
      hasNoSecComment acc = false →
      (∃ n, n ∈ names ∧ tm.contains n = true) →
      names.foldl (annotateStep tm) acc = appendNoSec acc
  | [], _, _, h => by
      rcases h with ⟨n, hn, _⟩
      exact absurd hn (List.not_mem_nil n)
  | n :: ns, acc, hm, h => by
      rw [List.foldl_cons]
      by_cases hc : tm.contains n = true
      · have hstep : annotateStep tm acc n = appendNoSec acc := by
          unfold annotateStep
          rw [if_pos hc, if_neg (by simp [hm])]
        rw [hstep]
        exact foldl_annotateStep_of_marker tm ns _ (hasNoSecComment_appendNoSec acc)
      · have hstep : annotateStep tm acc n = acc := by
          unfold annotateStep
          rw [if_neg hc]
        rw [hstep]
        apply foldl_annotateStep_first_match tm ns acc hm
        rcases h with ⟨x, hx, hcx⟩
        rcases List.mem_cons.mp hx with rfl | hx2
        · exact absurd hcx hc
        · exact ⟨x, hx2, hcx⟩

/-- C5: applying the annotation injector twice to any file yields the same
tree, and hence byte-identical rendered output, as applying it once; a
declaration whose comment group already contains the marker receives no
further comment. -/
theorem annotate_run_idempotent (tm : List String) (decls : List GoDecl) :
    annotateDecls tm (annotateDecls tm decls) = annotateDecls tm decls
    ∧ renderDecls (annotateDecls tm (annotateDecls tm decls))
        = renderDecls (annotateDecls tm decls) := by
  have hspec : ∀ s : GoSpec, annotateSpec tm (annotateSpec tm s) = annotateSpec tm s := by
    intro s
    cases s with
    | valueSpec vs =>
        show GoSpec.valueSpec (annotateValueSpec tm (annotateValueSpec tm vs))
            = GoSpec.valueSpec (annotateValueSpec tm vs)
        rw [annotateValueSpec_idem]
    | typeSpec name al ty => rfl
    | importSpec p => rfl
  have hdecl : ∀ d : GoDecl, annotateDecl tm (annotateDecl tm d) = annotateDecl tm d := by
    intro d
    cases d with
    | genDecl tok specs =>
        show GoDecl.genDecl tok ((specs.map (annotateSpec tm)).map (annotateSpec tm)) = _
        rw [List.map_map]
        congr 1
        apply List.map_congr_left
        intro s _
        exact hspec s
    | funcDecl f => rfl
  have hmain : annotateDecls tm (annotateDecls tm decls) = annotateDecls tm decls := by
    unfold annotateDecls
    rw [List.map_map]
    apply List.map_congr_left
    intro d _
    exact hdecl d
  exact ⟨hmain, congrArg renderDecls hmain⟩

/-- C8 counterexample: the declaration `const a, b = ...` with both names
targeted and no pre-existing comment receives a single `// #nosec` comment,
not one comment per matching name: when the loop reaches `b`, the comment
appended for `a` already contains the marker text, so nothing more is added.
The claim predicts two synthesized comments; the code produces one. -/
theorem annotate_multi_name_counterexample :
    annotateValueSpec ["a", "b"] (ValueSpec.mk ["a", "b"] none)
        = ValueSpec.mk ["a", "b"] (some ["// #nosec"])
    ∧ annotateValueSpec ["a", "b"] (ValueSpec.mk ["a", "b"] none)
        ≠ ValueSpec.mk ["a", "b"] (some ["// #nosec", "// #nosec"]) := by
  constructor <;> decide

/-- C8 amended: a value declaration with several declared names, at least one
of them targeted, and no pre-existing marker comment is annotated exactly
once for the whole declaration: one `// #nosec` comment is appended to the
declaration-level comment group (at the first matching name), and later
matching names add nothing. -/
theorem annotate_multi_name_single_marker (tm : List String) (vs : ValueSpec)
    (h1 : hasNoSecComment vs = false)
    (h2 : ∃ n, n ∈ vs.names ∧ tm.contains n = true) :
    annotateValueSpec tm vs = appendNoSec vs
    ∧ (appendNoSec vs).comment = some ((vs.comment.getD []) ++ ["// #nosec"]) := by
  constructor
  · exact foldl_annotateStep_first_match tm vs.names vs h1 h2
  · cases vs with
    | mk names comment => cases comment <;> rfl

/-- C8 amended, witness: both names of a two-name declaration are targeted
and the declaration gains the single marker comment. -/
theorem annotate_multi_name_single_marker_witness :
    annotateValueSpec ["a", "b"] (ValueSpec.mk ["a", "b"] none)
      = appendNoSec (ValueSpec.mk ["a", "b"] none) :=
  (annotate_multi_name_single_marker ["a", "b"] (ValueSpec.mk ["a", "b"] none)
      (by decide) ⟨"a", by decide, by decide⟩).1

/-! ### Lemmas about the model-name extractor -/

theorem mem_structNamesOfSpec (s : GoSpec) (n : String) :
    n ∈ structNamesOfSpec s
      ↔ ∃ al, s = GoSpec.typeSpec n al GoTypeExpr.structType := by
  cases s with
  | typeSpec name al ty =>
      cases ty with
      | structType =>
          constructor
          · intro h
            rcases List.mem_singleton.mp h with rfl
            exact ⟨al, rfl⟩
          · rintro ⟨al2, heq⟩
            injection heq with h1 h2 h3
            subst h1
            exact List.mem_singleton.mpr rfl
      | interfaceType => simp [structNamesOfSpec]
      | namedType t => simp [structNamesOfSpec]
      | funcType => simp [structNamesOfSpec]
  | valueSpec vs => simp [structNamesOfSpec]
  | importSpec p => simp [structNamesOfSpec]

theorem mem_structNamesOfDecl (d : GoDecl) (n : String) :
    n ∈ structNamesOfDecl d
      ↔ ∃ specs, d = GoDecl.genDecl GoTok.typeTok specs
          ∧ ∃ al, GoSpec.typeSpec n al GoTypeExpr.structType ∈ specs := by
  cases d with
  | genDecl tok specs =>
      by_cases ht : tok = GoTok.typeTok
      · subst ht
        show n ∈ (if GoTok.typeTok = GoTok.typeTok
            then specs.flatMap structNamesOfSpec else []) ↔ _
        rw [if_pos rfl, List.mem_flatMap]
        constructor
        · rintro ⟨s, hs, hn⟩
          rcases (mem_structNamesOfSpec s n).mp hn with ⟨al, rfl⟩
          exact ⟨specs, rfl, al, hs⟩
        · rintro ⟨specs2, heq, al, hmem⟩
          injection heq with h1 h2
          subst h2
          exact ⟨GoSpec.typeSpec n al GoTypeExpr.structType, hmem,
            (mem_structNamesOfSpec _ n).mpr ⟨al, rfl⟩⟩
      · show n ∈ (if tok = GoTok.typeTok then specs.flatMap structNamesOfSpec else []) ↔ _
        rw [if_neg ht]
        constructor
        · intro h
          exact absurd h (List.not_mem_nil n)
        · rintro ⟨specs2, heq, _⟩
          injection heq with h1 h2
          exact absurd h1 ht
  | funcDecl f =>
      constructor
      · intro h
        exact absurd h (List.not_mem_nil n)
      · rintro ⟨specs2, heq, _⟩
        exact GoDecl.noConfusion heq

/-- C6 amended: a name is in the extractor's model name set if and only if
some top-level `type` declaration contains a type spec binding that name to a
struct literal — regardless of whether that spec is an alias declaration.
Interfaces, named/primitive types, function types, value specs and non-type
declarations contribute nothing. -/
theorem collect_model_names_iff (decls : List GoDecl) (n : String) :
    n ∈ collectModelNames decls
      ↔ ∃ specs, GoDecl.genDecl GoTok.typeTok specs ∈ decls
          ∧ ∃ al, GoSpec.typeSpec n al GoTypeExpr.structType ∈ specs := by
  unfold collectModelNames
  rw [List.mem_flatMap]
  constructor
  · rintro ⟨d, hd, hn⟩
    rcases (mem_structNamesOfDecl d n).mp hn with ⟨specs, rfl, hal⟩
    exact ⟨specs, hd, hal⟩
  · rintro ⟨specs, hmem, hal⟩
    exact ⟨GoDecl.genDecl GoTok.typeTok specs, hmem,
      (mem_structNamesOfDecl _ n).mpr ⟨specs, rfl, hal⟩⟩

/-- C6 amended, witness: a plain (non-alias) struct declaration is
collected. -/
theorem collect_model_names_iff_witness :
    "Transaction" ∈ collectModelNames
      [GoDecl.genDecl GoTok.typeTok
        [GoSpec.typeSpec "Transaction" false GoTypeExpr.structType]] :=
  (collect_model_names_iff _ "Transaction").mpr
    ⟨[GoSpec.typeSpec "Transaction" false GoTypeExpr.structType],
      by decide, false, by decide⟩

/-- A models file declaring `type Foo = struct ...`: a type alias whose
aliased type expression is a struct literal. -/
def aliasStructDecls : List GoDecl :=
  [GoDecl.genDecl GoTok.typeTok [GoSpec.typeSpec "Foo" true GoTypeExpr.structType]]

/-- C6 counterexample: the extractor records the name of an alias declaration
whenever the aliased type expression is a struct literal, because
qualifymodels.go:98 only inspects the shape of `TypeSpec.Type` and never the
alias marker; the spec-modelled set (which excludes aliases) is empty here,
so the produced set does contain a name declared as an alias. -/
theorem model_names_alias_counterexample :
    collectModelNames aliasStructDecls = ["Foo"]
    ∧ specModelNames aliasStructDecls = [] := by
  constructor <;> rfl

/-- C3: evaluation of the CSV field loop at the failing input `[[" Foo"]]`.
The code checks that the trimmed field is non-empty but inserts the
untrimmed field (addnosec.go:164-167), so the produced set holds `" Foo"`
and not `"Foo"`, while the trimmed form of the field is `"Foo"` and the
sibling inline parser (addnosec.go:173-182) inserts exactly the trimmed
form. -/
theorem csv_untrimmed_insertion :
    parseTargetsCSVRows [[" Foo"]] = [" Foo"]
    ∧ (parseTargetsCSVRows [[" Foo"]]).contains "Foo" = false
    ∧ goTrimSpace " Foo" = "Foo"
    ∧ parseTargets " Foo" = ["Foo"] := by
  refine ⟨?_, ?_, ?_, ?_⟩ <;> decide

/-! ### Lemmas about the path sandbox -/

theorem strData_append (a b : String) : (a ++ b).data = a.data ++ b.data := by
  cases a
  cases b
  rfl

theorem isPrefixOf_self (l : List Char) : l.isPrefixOf l = true := by
  induction l with
  | nil => rfl
  | cons c cs ih => simp [List.isPrefixOf, ih]

theorem goStartsWith_of_slash (p b : String) (h : goStartsWith p (b ++ "/") = true) :
    goStartsWith p b = true := by
  unfold goStartsWith at *
  rw [List.isPrefixOf_iff_prefix] at h ⊢
  have hsub : b.toList <+: (b ++ "/").toList := by
    show b.data <+: (b ++ "/").data
    rw [strData_append]
    exact List.prefix_append _ _
  exact hsub.trans h

/-- The branch structure of `sanitizePath`, written out. -/
theorem sanitizePath_eq (cwd p b : String) :
    sanitizePath cwd p b
      = if (!(goStartsWith (goAbs cwd p) (goAbs cwd b))) = true
        then Except.error ("invalid path: " ++ goAbs cwd p
          ++ " is not within the allowed directory " ++ goAbs cwd b)
        else Except.ok (goAbs cwd p) := rfl

/-- C2 counterexample: with allowed base directory `/a`, the CSV path `/ab`
resolves to `/ab`, which is not contained within the directory `/a`, yet
`sanitizePath` accepts it because the string `/a` is a prefix of the string
`/ab`.  So the resolver does not fail whenever the resolved path lies outside
the resolved base directory. -/
theorem sanitize_prefix_counterexample :
    sanitizePath "/" "/ab" "/a" = Except.ok "/ab"
    ∧ containedInDir "/ab" "/a" = false := by
  constructor
  · rfl
  · decide

/-- C2 amended: the file-based resolver resolves both paths to absolute form
(`..` segments are collapsed during resolution) and succeeds exactly when the
resolved base directory is a string prefix of the resolved file path; every
path genuinely contained within the base directory is accepted, but a sibling
path whose name merely extends the base string is accepted as well. -/
theorem sanitize_string_prefix_characterization (cwd p b : String) :
    ((sanitizePath cwd p b).isOk = goStartsWith (goAbs cwd p) (goAbs cwd b))
    ∧ (containedInDir (goAbs cwd p) (goAbs cwd b) = true →
        sanitizePath cwd p b = Except.ok (goAbs cwd p)) := by
  constructor
  · rw [sanitizePath_eq]
    cases h : goStartsWith (goAbs cwd p) (goAbs cwd b) with
    | false => rfl
    | true => rfl
  · intro hc
    have hpref : goStartsWith (goAbs cwd p) (goAbs cwd b) = true := by
      unfold containedInDir at hc
      rcases Bool.or_eq_true _ _ |>.mp hc with h | h
      · have heq : goAbs cwd p = goAbs cwd b := eq_of_beq h
        rw [heq]
        exact isPrefixOf_self _
      · exact goStartsWith_of_slash _ _ h
    rw [sanitizePath_eq, hpref]
    rfl

/-- C2 amended, witness: a path strictly inside the base directory is
accepted, with the resolved path returned. -/
theorem sanitize_string_prefix_characterization_witness :
    containedInDir (goAbs "/" "/a/x") (goAbs "/" "/a") = true
    ∧ sanitizePath "/" "/a/x" "/a" = Except.ok (goAbs "/" "/a/x") :=
  ⟨by decide, (sanitize_string_prefix_characterization "/" "/a/x" "/a").2 (by decide)⟩

/-! ### The addnosec `Run` pipeline (addnosec.go:53-140)

The filesystem is modelled explicitly: the working directory, the readable
CSV files (already split into rows by `encoding/csv`, or unreadable, or
malformed), the glob results per pattern (or a glob failure) and the
parseable Go files per path.  A run returns its terminal result together
with the ordered trace of filesystem effects it performed: opening the CSV
file, globbing for source files, and writing a rewritten file.  File
creation and formatting are assumed to succeed (their failures are mere
error propagation, exercised by the repository's tests through swappable
function variables). -/

structure Config where
  allowedBaseDir : String

inductive CSVRead where
  | noFile
  | malformed
  | rows (rs : List (List String))

structure AnFS where
  cwd : String
  csvFiles : String → CSVRead
  globResult : String → Option (List String)
  goFiles : String → Option (List GoDecl)

inductive AnEvent where
  | openedCSV (path : String)
  | globbed (pattern : String)
  | wrote (path : String) (content : List GoDecl)
deriving DecidableEq

/-- addnosec.go:142-171, `parseTargetsCSV`: sanitize the path, open the file
at the sanitized path, parse it as CSV rows, build the target set. -/
def parseTargetsCSVm (fs : AnFS) (csvPath allowedBaseDir : String) :
    Except String (List String) × List AnEvent :=
  match sanitizePath fs.cwd csvPath allowedBaseDir with
  | Except.error e => (Except.error e, [])
  | Except.ok safePath =>
    match fs.csvFiles safePath with
    | CSVRead.noFile => (Except.error "failed to open CSV file", [])
    | CSVRead.malformed =>
        (Except.error "failed to parse CSV file", [AnEvent.openedCSV safePath])
    | CSVRead.rows rs =>
        (Except.ok (parseTargetsCSVRows rs), [AnEvent.openedCSV safePath])

/-- addnosec.go:59-72: the mutual-exclusivity checks and the dispatch to the
CSV parser or the inline parser, with the CSV error wrapped as in
addnosec.go:68. -/
def resolveTargets (targets csvPath : String) (cfg : Config) (fs : AnFS) :
    Except String (List String) × List AnEvent :=
  if csvPath ≠ "" ∧ targets ≠ "" then
    (Except.error "cannot specify both targets and csvPath", [])
  else if targets = "" ∧ csvPath = "" then
    (Except.error "must specify either targets or csvPath", [])
  else if csvPath ≠ "" then
    match parseTargetsCSVm fs csvPath cfg.allowedBaseDir with
    | (Except.error e, evs) => (Except.error ("error parsing CSV file: " ++ e), evs)
    | (Except.ok tm, evs) => (Except.ok tm, evs)
  else (Except.ok (parseTargets targets), [])

/-- addnosec.go:83-138: the per-file loop — parse, annotate, rewrite in
place.  A parse failure aborts; every successfully parsed file is written
with its annotated tree, unconditionally. -/
def anProcessFiles (targetMap : List String) (fs : AnFS) :
    List String → Except String Unit × List AnEvent
  | [] => (Except.ok (), [])
  | file :: rest =>
    match fs.goFiles file with
    | none => (Except.error ("failed to parse file " ++ file), [])
    | some decls =>
        ((anProcessFiles targetMap fs rest).1,
          AnEvent.wrote file (annotateDecls targetMap decls)
            :: (anProcessFiles targetMap fs rest).2)

/-- addnosec.go:53-140, `Run`: resolve the targets, glob for files, process
each file. -/
def anRun (queryGlob targets csvPath : String) (cfg : Config) (fs : AnFS) :
    Except String Unit × List AnEvent :=
  match resolveTargets targets csvPath cfg fs with
  | (Except.error e, evs) => (Except.error e, evs)
  | (Except.ok targetMap, evs) =>
    match fs.globResult queryGlob with
    | none => (Except.error ("failed to glob files with pattern " ++ queryGlob),
        evs ++ [AnEvent.globbed queryGlob])
    | some files =>
        ((anProcessFiles targetMap fs files).1,
          evs ++ AnEvent.globbed queryGlob :: (anProcessFiles targetMap fs files).2)

/-! ### The qualifymodels `Run` pipeline (qualifymodels.go:73-156) -/

structure QmFS where
  modern : Bool
  modelFiles : String → Option (List GoDecl)
  globResult : String → Option (List String)
  queryFiles : String → Option QFile

inductive QmEvent where
  | globbed (pattern : String)
  | wrote (path : String) (content : QFile)
deriving DecidableEq

/-- qualifymodels.go:113-154: the per-file loop — parse, qualify, ensure
the import, rewrite in place. -/
def qmProcessFiles (modelNames : List String) (pkgAlias modelImport : String) (fs : QmFS) :
    List String → Except String Unit × List QmEvent
  | [] => (Except.ok (), [])
  | file :: rest =>
    match fs.queryFiles file with
    | none => (Except.error ("failed to parse query file " ++ file), [])
    | some qf =>
        ((qmProcessFiles modelNames pkgAlias modelImport fs rest).1,
          QmEvent.wrote file (qualifyFile modelNames pkgAlias modelImport qf)
            :: (qmProcessFiles modelNames pkgAlias modelImport fs rest).2)

/-- qualifymodels.go:73-156, `Run`: skip everything when native SQLC
qualification is detected (`isSQLCModern`, a read of sqlc.yaml modelled by
the `modern` flag), otherwise parse the models file, collect struct names,
derive the alias from the import path, glob, and process each file. -/
def qmRun (modelPath queryGlob modelImport : String) (fs : QmFS) :
    Except String Unit × List QmEvent :=
  if fs.modern then (Except.ok (), [])
  else
    match fs.modelFiles modelPath with
    | none => (Except.error "failed to parse model file", [])
    | some mdecls =>
      match fs.globResult queryGlob with
      | none => (Except.error "failed to glob query files", [QmEvent.globbed queryGlob])
      | some files =>
          ((qmProcessFiles (collectModelNames mdecls) (pathBase modelImport)
              modelImport fs files).1,
            QmEvent.globbed queryGlob
              :: (qmProcessFiles (collectModelNames mdecls) (pathBase modelImport)
                  modelImport fs files).2)

/-! ### Lemmas about the run pipelines -/

/-- Two strings differ when one starts with a character the other does not
(used to separate the distinct error messages of the pipeline stages). -/
theorem append_ne_of_head (a b c : String) (ch : Char)
    (ha : a.data.head? = some ch) (hc : c.data.head? ≠ some ch) : a ++ b ≠ c := by
  intro he
  apply hc
  rw [← he]
  show (a ++ b).data.head? = some ch
  rw [strData_append]
  cases hd : a.data with
  | nil =>
      rw [hd] at ha
      exact absurd ha (by simp)
  | cons x xs =>
      rw [hd] at ha
      rw [List.head?_cons] at ha
      injection ha with hx
      subst hx
      rfl

/-- Every effect of the CSV target parser is a CSV-file open: it never globs
and never writes. -/
theorem parseTargetsCSVm_sanitize_error (fs : AnFS) (csvPath base e : String)
    (h : sanitizePath fs.cwd csvPath base = Except.error e) :
    parseTargetsCSVm fs csvPath base = (Except.error e, []) := by
  unfold parseTargetsCSVm
  rw [h]

theorem parseTargetsCSVm_sanitize_ok (fs : AnFS) (csvPath base safePath : String)
    (h : sanitizePath fs.cwd csvPath base = Except.ok safePath) :
    parseTargetsCSVm fs csvPath base
      = (match fs.csvFiles safePath with
         | CSVRead.noFile => (Except.error "failed to open CSV file", [])
         | CSVRead.malformed =>
             (Except.error "failed to parse CSV file", [AnEvent.openedCSV safePath])
         | CSVRead.rows rs =>
             (Except.ok (parseTargetsCSVRows rs), [AnEvent.openedCSV safePath])) := by
  unfold parseTargetsCSVm
  rw [h]

theorem parseTargetsCSVm_events (fs : AnFS) (csvPath base : String) :
    ∀ ev ∈ (parseTargetsCSVm fs csvPath base).2, ∃ pth, ev = AnEvent.openedCSV pth := by
  intro ev hev
  cases hsp : sanitizePath fs.cwd csvPath base with
  | error e =>
      rw [parseTargetsCSVm_sanitize_error fs csvPath base e hsp] at hev
      exact absurd hev (List.not_mem_nil ev)
  | ok safePath =>
      rw [parseTargetsCSVm_sanitize_ok fs csvPath base safePath hsp] at hev
      cases hcs : fs.csvFiles safePath with
      | noFile =>
          rw [hcs] at hev
          exact absurd hev (List.not_mem_nil ev)
      | malformed =>
          rw [hcs] at hev
          rcases List.mem_singleton.mp hev with rfl
          exact ⟨safePath, rfl⟩
      | rows rs =>
          rw [hcs] at hev
          rcases List.mem_singleton.mp hev with rfl
          exact ⟨safePath, rfl⟩

/-- Every effect of target resolution is a CSV-file open. -/
theorem resolveTargets_events (targets csvPath : String) (cfg : Config) (fs : AnFS) :
    ∀ ev ∈ (resolveTargets targets csvPath cfg fs).2, ∃ pth, ev = AnEvent.openedCSV pth := by
  unfold resolveTargets
  by_cases h1 : csvPath ≠ "" ∧ targets ≠ ""
  · rw [if_pos h1]
    intro ev hev
    exact absurd hev (List.not_mem_nil ev)
  · rw [if_neg h1]
    by_cases h2 : targets = "" ∧ csvPath = ""
    · rw [if_pos h2]
      intro ev hev
      exact absurd hev (List.not_mem_nil ev)
    · rw [if_neg h2]
      by_cases h3 : csvPath ≠ ""
      · rw [if_pos h3]
        cases hp : parseTargetsCSVm fs csvPath cfg.allowedBaseDir with
        | mk r evs =>
            cases r with
            | error e =>
                intro ev hev
                apply parseTargetsCSVm_events fs csvPath cfg.allowedBaseDir ev
                rw [hp]
                exact hev
            | ok tm =>
                intro ev hev
                apply parseTargetsCSVm_events fs csvPath cfg.allowedBaseDir ev
                rw [hp]
                exact hev
      · rw [if_neg h3]
        intro ev hev
        exact absurd hev (List.not_mem_nil ev)

theorem anProcessFiles_cons_none (tm : List String) (fs : AnFS) (file : String)
    (rest : List String) (hg : fs.goFiles file = none) :
    anProcessFiles tm fs (file :: rest)
      = (Except.error ("failed to parse file " ++ file), []) := by
  unfold anProcessFiles
  rw [hg]

theorem anProcessFiles_cons_some (tm : List String) (fs : AnFS) (file : String)
    (rest : List String) (decls : List GoDecl) (hg : fs.goFiles file = some decls) :
    anProcessFiles tm fs (file :: rest)
      = ((anProcessFiles tm fs rest).1,
          AnEvent.wrote file (annotateDecls tm decls) :: (anProcessFiles tm fs rest).2) := by
  conv_lhs => unfold anProcessFiles
  rw [hg]

/-- The per-file loop either succeeds or fails with a parse error naming the
offending file. -/
theorem anProcessFiles_result (tm : List String) (fs : AnFS) :
    ∀ files : List String,
      (anProcessFiles tm fs files).1 = Except.ok ()
      ∨ ∃ f, (anProcessFiles tm fs files).1 = Except.error ("failed to parse file " ++ f)
  | [] => Or.inl rfl
  | file :: rest => by
      cases hg : fs.goFiles file with
      | none =>
          right
          exact ⟨file, by rw [anProcessFiles_cons_none tm fs file rest hg]⟩
      | some decls =>
          rw [anProcessFiles_cons_some tm fs file rest decls hg]
          exact anProcessFiles_result tm fs rest

/-- If the per-file loop succeeds, every listed file was parsed and its
annotated tree was written — whether or not the annotation changed it. -/
theorem anProcessFiles_writes (tm : List String) (fs : AnFS) :
    ∀ files : List String,
      (anProcessFiles tm fs files).1 = Except.ok () →
      ∀ f ∈ files, ∃ decls, fs.goFiles f = some decls
        ∧ AnEvent.wrote f (annotateDecls tm decls) ∈ (anProcessFiles tm fs files).2
  | [] => by
      intro _ f hf
      exact absurd hf (List.not_mem_nil f)
  | file :: rest => by
      intro hok f hf
      cases hg : fs.goFiles file with
      | none =>
          rw [anProcessFiles_cons_none tm fs file rest hg] at hok
          exact absurd hok (by simp)
      | some decls =>
          rw [anProcessFiles_cons_some tm fs file rest decls hg] at hok ⊢
          rcases List.mem_cons.mp hf with rfl | hf2
          · exact ⟨decls, hg, List.mem_cons_self _ _⟩
          · rcases anProcessFiles_writes tm fs rest hok f hf2 with ⟨ds, hds, hmem⟩
            exact ⟨ds, hds, List.mem_cons_of_mem _ hmem⟩

/-- In the exactly-one-source cases, target resolution either succeeds or
fails with a wrapped CSV error. -/
theorem resolveTargets_exactly_one (targets csvPath : String) (cfg : Config) (fs : AnFS)
    (h : (targets = "" ∧ csvPath ≠ "") ∨ (targets ≠ "" ∧ csvPath = "")) :
    (∃ tm, (resolveTargets targets csvPath cfg fs).1 = Except.ok tm)
    ∨ ∃ e2, (resolveTargets targets csvPath cfg fs).1
        = Except.error ("error parsing CSV file: " ++ e2) := by
  have h1 : ¬(csvPath ≠ "" ∧ targets ≠ "") := by
    rcases h with ⟨ht, hc⟩ | ⟨ht, hc⟩
    · rintro ⟨_, h⟩
      exact h ht
    · rintro ⟨h, _⟩
      exact h hc
  have h2 : ¬(targets = "" ∧ csvPath = "") := by
    rcases h with ⟨ht, hc⟩ | ⟨ht, hc⟩
    · rintro ⟨_, h⟩
      exact hc h
    · rintro ⟨h, _⟩
      exact ht h
  unfold resolveTargets
  rw [if_neg h1, if_neg h2]
  by_cases h3 : csvPath ≠ ""
  · rw [if_pos h3]
    cases hp : parseTargetsCSVm fs csvPath cfg.allowedBaseDir with
    | mk r evs =>
        cases r with
        | error e => exact Or.inr ⟨e, rfl⟩
        | ok tm => exact Or.inl ⟨tm, rfl⟩
  · rw [if_neg h3]
    exact Or.inl ⟨parseTargets targets, rfl⟩

/-- In the exactly-one-source cases, every terminal error of the whole run is
a wrapped CSV error, a glob failure or a file parse failure. -/
theorem an_run_errors (queryGlob targets csvPath : String) (cfg : Config) (fs : AnFS)
    (h : (targets = "" ∧ csvPath ≠ "") ∨ (targets ≠ "" ∧ csvPath = "")) :
    ∀ e, (anRun queryGlob targets csvPath cfg fs).1 = Except.error e →
      (∃ e2, e = "error parsing CSV file: " ++ e2)
      ∨ e = "failed to glob files with pattern " ++ queryGlob
      ∨ ∃ f, e = "failed to parse file " ++ f := by
  intro e he
  unfold anRun at he
  cases hres : resolveTargets targets csvPath cfg fs with
  | mk r evs =>
      rw [hres] at he
      cases r with
      | error e0 =>
          rcases resolveTargets_exactly_one targets csvPath cfg fs h with ⟨tm, hok⟩ | ⟨e2, herr⟩
          · rw [hres] at hok
            exact absurd hok (by simp)
          · rw [hres] at herr
            injection herr with h0
            injection he with h1
            left
            exact ⟨e2, by rw [← h1, h0]⟩
      | ok tm =>
          cases hgl : fs.globResult queryGlob with
          | none =>
              rw [hgl] at he
              injection he with h1
              right
              left
              exact h1.symm
          | some files =>
              rw [hgl] at he
              rcases anProcessFiles_result tm fs files with hok | ⟨f, herr⟩
              · rw [hok] at he
                exact absurd he (by simp)
              · rw [herr] at he
                injection he with h1
                right
                right
                exact ⟨f, h1.symm⟩

/-- C7: supplying both an inline target list and a CSV path fails with the
"cannot specify both" config error, supplying neither fails with the "must
specify either" config error — in both cases with an empty effect trace, so
no file is read or written — and when exactly one source is supplied the run
never fails with either config error. -/
theorem an_run_mutual_exclusivity (queryGlob targets csvPath : String) (cfg : Config)
    (fs : AnFS) :
    (csvPath ≠ "" → targets ≠ "" →
      anRun queryGlob targets csvPath cfg fs
        = (Except.error "cannot specify both targets and csvPath", []))
    ∧ (targets = "" → csvPath = "" →
      anRun queryGlob targets csvPath cfg fs
        = (Except.error "must specify either targets or csvPath", []))
    ∧ ((targets = "" ∧ csvPath ≠ "") ∨ (targets ≠ "" ∧ csvPath = "") →
      ∀ e, (anRun queryGlob targets csvPath cfg fs).1 = Except.error e →
        e ≠ "cannot specify both targets and csvPath"
        ∧ e ≠ "must specify either targets or csvPath") := by
  refine ⟨?_, ?_, ?_⟩
  · intro hc ht
    have hres : resolveTargets targets csvPath cfg fs
        = (Except.error "cannot specify both targets and csvPath", []) := by
      unfold resolveTargets
      rw [if_pos ⟨hc, ht⟩]
    unfold anRun
    rw [hres]
  · intro ht hc
    have h1 : ¬(csvPath ≠ "" ∧ targets ≠ "") := by
      rintro ⟨h, _⟩
      exact h hc
    have hres : resolveTargets targets csvPath cfg fs
        = (Except.error "must specify either targets or csvPath", []) := by
      unfold resolveTargets
      rw [if_neg h1, if_pos ⟨ht, hc⟩]
    unfold anRun
    rw [hres]
  · intro h e he
    rcases an_run_errors queryGlob targets csvPath cfg fs h e he with ⟨e2, rfl⟩ | rfl | ⟨f, rfl⟩
    · constructor
      · exact append_ne_of_head _ _ _ 'e' (by decide) (by decide)
      · exact append_ne_of_head _ _ _ 'e' (by decide) (by decide)
    · constructor
      · exact append_ne_of_head _ _ _ 'f' (by decide) (by decide)
      · exact append_ne_of_head _ _ _ 'f' (by decide) (by decide)
    · constructor
      · exact append_ne_of_head _ _ _ 'f' (by decide) (by decide)
      · exact append_ne_of_head _ _ _ 'f' (by decide) (by decide)

/-- A concrete filesystem used to witness the run-level theorems: no CSV file
is readable, the pattern `g` matches the single parseable (empty) file
`a.go`. -/
def afsW : AnFS :=
  AnFS.mk "/" (fun _ => CSVRead.noFile)
    (fun g => if g = "g" then some ["a.go"] else none)
    (fun f => if f = "a.go" then some [] else none)

/-- C7 witness: with both sources supplied, the run fails with the "cannot
specify both" error and an empty trace. -/
theorem an_run_mutual_exclusivity_witness :
    anRun "g" "t" "c.csv" (Config.mk "/") afsW
      = (Except.error "cannot specify both targets and csvPath", []) :=
  (an_run_mutual_exclusivity "g" "t" "c.csv" (Config.mk "/") afsW).1
    (by decide) (by decide)

/-- C10: whenever target resolution fails — the mutual-exclusivity checks,
the path sandbox check, or opening/parsing the CSV file — the run returns
that error without globbing for source files, and its effect trace contains
no glob and no write: no source file has been opened for writing or
modified. -/
theorem an_resolution_error_atomic (queryGlob targets csvPath : String) (cfg : Config)
    (fs : AnFS) (e : String)
    (h : (resolveTargets targets csvPath cfg fs).1 = Except.error e) :
    anRun queryGlob targets csvPath cfg fs
        = (Except.error e, (resolveTargets targets csvPath cfg fs).2)
    ∧ ∀ ev ∈ (anRun queryGlob targets csvPath cfg fs).2,
        (∀ pat, ev ≠ AnEvent.globbed pat) ∧ (∀ pth c, ev ≠ AnEvent.wrote pth c) := by
  have hmain : anRun queryGlob targets csvPath cfg fs
      = (Except.error e, (resolveTargets targets csvPath cfg fs).2) := by
    unfold anRun
    cases hres : resolveTargets targets csvPath cfg fs with
    | mk r evs =>
        rw [hres] at h
        cases r with
        | error e0 =>
            injection h with h0
            rw [h0]
        | ok tm =>
            exact absurd h (by simp)
  refine ⟨hmain, ?_⟩
  intro ev hev
  rw [hmain] at hev
  rcases resolveTargets_events targets csvPath cfg fs ev hev with ⟨pth, rfl⟩
  constructor
  · intro pat hne
    exact AnEvent.noConfusion hne
  · intro pth2 c hne
    exact AnEvent.noConfusion hne

/-- C10 witness: with only a CSV path supplied but no readable CSV file, the
run fails with the wrapped open error and performs no glob and no write. -/
theorem an_resolution_error_atomic_witness :
    anRun "g" "" "c.csv" (Config.mk "/") afsW
      = (Except.error "error parsing CSV file: failed to open CSV file",
          (resolveTargets "" "c.csv" (Config.mk "/") afsW).2)
    ∧ ∀ ev ∈ (anRun "g" "" "c.csv" (Config.mk "/") afsW).2,
        (∀ pat, ev ≠ AnEvent.globbed pat) ∧ (∀ pth c, ev ≠ AnEvent.wrote pth c) :=
  an_resolution_error_atomic "g" "" "c.csv" (Config.mk "/") afsW
    "error parsing CSV file: failed to open CSV file" rfl

/-! ### Frame effects: every matched file is rewritten -/

theorem anRun_ok_shape (queryGlob targets csvPath : String) (cfg : Config) (fs : AnFS)
    (tm : List String) (files : List String)
    (hres1 : (resolveTargets targets csvPath cfg fs).1 = Except.ok tm)
    (hgl : fs.globResult queryGlob = some files) :
    anRun queryGlob targets csvPath cfg fs
      = ((anProcessFiles tm fs files).1,
          (resolveTargets targets csvPath cfg fs).2
            ++ AnEvent.globbed queryGlob :: (anProcessFiles tm fs files).2) := by
  unfold anRun
  cases hres : resolveTargets targets csvPath cfg fs with
  | mk r evs =>
      rw [hres] at hres1
      cases r with
      | error e => exact absurd hres1 (by simp)
      | ok tm2 =>
          have h0 : tm2 = tm := by
            injection hres1
          subst h0
          rw [hgl]

theorem qmProcessFiles_cons_none (m : List String) (a p : String) (fs : QmFS)
    (file : String) (rest : List String) (hg : fs.queryFiles file = none) :
    qmProcessFiles m a p fs (file :: rest)
      = (Except.error ("failed to parse query file " ++ file), []) := by
  unfold qmProcessFiles
  rw [hg]

theorem qmProcessFiles_cons_some (m : List String) (a p : String) (fs : QmFS)
    (file : String) (rest : List String) (qf : QFile)
    (hg : fs.queryFiles file = some qf) :
    qmProcessFiles m a p fs (file :: rest)
      = ((qmProcessFiles m a p fs rest).1,
          QmEvent.wrote file (qualifyFile m a p qf) :: (qmProcessFiles m a p fs rest).2) := by
  conv_lhs => unfold qmProcessFiles
  rw [hg]

/-- If the qualifier's per-file loop succeeds, every listed file was parsed
and its qualified tree was written — whether or not any identifier was
replaced. -/
theorem qmProcessFiles_writes (m : List String) (a p : String) (fs : QmFS) :
    ∀ files : List String,
      (qmProcessFiles m a p fs files).1 = Except.ok () →
      ∀ f ∈ files, ∃ qf, fs.queryFiles f = some qf
        ∧ QmEvent.wrote f (qualifyFile m a p qf) ∈ (qmProcessFiles m a p fs files).2
  | [] => by
      intro _ f hf
      exact absurd hf (List.not_mem_nil f)
  | file :: rest => by
      intro hok f hf
      cases hg : fs.queryFiles file with
      | none =>
          rw [qmProcessFiles_cons_none m a p fs file rest hg] at hok
          exact absurd hok (by simp)
      | some qf =>
          rw [qmProcessFiles_cons_some m a p fs file rest qf hg] at hok ⊢
          rcases List.mem_cons.mp hf with rfl | hf2
          · exact ⟨qf, hg, List.mem_cons_self _ _⟩
          · rcases qmProcessFiles_writes m a p fs rest hok f hf2 with ⟨qf2, hq2, hmem⟩
            exact ⟨qf2, hq2, List.mem_cons_of_mem _ hmem⟩

theorem qmRun_ok_shape (modelPath queryGlob modelImport : String) (fs : QmFS)
    (mdecls : List GoDecl) (files : List String)
    (hmod : fs.modern = false)
    (hmf : fs.modelFiles modelPath = some mdecls)
    (hgl : fs.globResult queryGlob = some files) :
    qmRun modelPath queryGlob modelImport fs
      = ((qmProcessFiles (collectModelNames mdecls) (pathBase modelImport)
            modelImport fs files).1,
          QmEvent.globbed queryGlob
            :: (qmProcessFiles (collectModelNames mdecls) (pathBase modelImport)
                modelImport fs files).2) := by
  unfold qmRun
  rw [hmod, if_neg Bool.false_ne_true, hmf, hgl]

/-- The qualifier pass always leaves the models import present in its
output. -/
theorem qualifyFile_contains_import (m : List String) (a p : String) (f : QFile) :
    (qualifyFile m a p f).imports.contains p = true := by
  unfold qualifyFile
  exact addImport_contains_self _ _

/-- C9: on a successful run, every file yielded by the file-selection step is
unconditionally rewritten — the written content is exactly the re-rendered
transformed tree of the parsed file, even when the transformation replaced
zero identifiers or annotated zero declarations — and in the qualifier
pipeline the written tree of every matched file carries the models-package
reference, whether or not any identifier in that file was qualified. -/
theorem run_rewrites_every_matched_file
    (modelPath queryGlob modelImport : String) (qfs : QmFS)
    (mdecls : List GoDecl) (qfiles : List String)
    (hmod : qfs.modern = false)
    (hmf : qfs.modelFiles modelPath = some mdecls)
    (hqgl : qfs.globResult queryGlob = some qfiles)
    (hqok : (qmRun modelPath queryGlob modelImport qfs).1 = Except.ok ())
    (aglob targets csvPath : String) (cfg : Config) (afs : AnFS)
    (tm : List String) (afiles : List String)
    (hres : (resolveTargets targets csvPath cfg afs).1 = Except.ok tm)
    (hagl : afs.globResult aglob = some afiles)
    (haok : (anRun aglob targets csvPath cfg afs).1 = Except.ok ()) :
    (∀ f ∈ qfiles, ∃ qf, qfs.queryFiles f = some qf
      ∧ QmEvent.wrote f
          (qualifyFile (collectModelNames mdecls) (pathBase modelImport) modelImport qf)
          ∈ (qmRun modelPath queryGlob modelImport qfs).2
      ∧ (qualifyFile (collectModelNames mdecls) (pathBase modelImport)
          modelImport qf).imports.contains modelImport = true)
    ∧ (∀ f ∈ afiles, ∃ decls, afs.goFiles f = some decls
      ∧ AnEvent.wrote f (annotateDecls tm decls)
          ∈ (anRun aglob targets csvPath cfg afs).2) := by
  have hqshape := qmRun_ok_shape modelPath queryGlob modelImport qfs mdecls qfiles hmod hmf hqgl
  have hashape := anRun_ok_shape aglob targets csvPath cfg afs tm afiles hres hagl
  constructor
  · intro f hf
    have hpok : (qmProcessFiles (collectModelNames mdecls) (pathBase modelImport)
        modelImport qfs qfiles).1 = Except.ok () := by
      rw [hqshape] at hqok
      exact hqok
    rcases qmProcessFiles_writes _ _ _ qfs qfiles hpok f hf with ⟨qf, hq, hmem⟩
    refine ⟨qf, hq, ?_, qualifyFile_contains_import _ _ _ _⟩
    rw [hqshape]
    exact List.mem_cons_of_mem _ hmem
  · intro f hf
    have hpok : (anProcessFiles tm afs afiles).1 = Except.ok () := by
      rw [hashape] at haok
      exact haok
    rcases anProcessFiles_writes tm afs afiles hpok f hf with ⟨ds, hds, hmem⟩
    refine ⟨ds, hds, ?_⟩
    rw [hashape]
    exact List.mem_append_right _ (List.mem_cons_of_mem _ hmem)

/-- The models file used by the C9 witness: one struct type `T`. -/
def modelDeclsW : List GoDecl :=
  [GoDecl.genDecl GoTok.typeTok [GoSpec.typeSpec "T" false GoTypeExpr.structType]]

/-- The query-side filesystem used by the C9 witness: the pattern `q` matches
the single file `q.go`, whose only expression `x` references no model, so the
qualifier run replaces zero identifiers in it. -/
def qfsW : QmFS :=
  QmFS.mk false
    (fun p => if p = "m.go" then some modelDeclsW else none)
    (fun g => if g = "q" then some ["q.go"] else none)
    (fun f => if f = "q.go" then some (QFile.mk [] [GoExpr.ident "x"]) else none)

/-- C9 witness: in both pipelines, the single matched file — needing no
change (no model identifier, no targeted constant) — is still written, and
the qualifier output carries the import. -/
theorem run_rewrites_every_matched_file_witness :
    (∀ f ∈ ["q.go"], ∃ qf, qfsW.queryFiles f = some qf
      ∧ QmEvent.wrote f
          (qualifyFile (collectModelNames modelDeclsW) (pathBase "internal/models")
            "internal/models" qf)
          ∈ (qmRun "m.go" "q" "internal/models" qfsW).2
      ∧ (qualifyFile (collectModelNames modelDeclsW) (pathBase "internal/models")
          "internal/models" qf).imports.contains "internal/models" = true)
    ∧ (∀ f ∈ ["a.go"], ∃ decls, afsW.goFiles f = some decls
      ∧ AnEvent.wrote f (annotateDecls ["t"] decls)
          ∈ (anRun "g" "t" "" (Config.mk "/") afsW).2) :=
  run_rewrites_every_matched_file "m.go" "q" "internal/models" qfsW modelDeclsW ["q.go"]
    rfl rfl rfl rfl "g" "t" "" (Config.mk "/") afsW ["t"] ["a.go"] rfl rfl rfl

end SqlcQol
